import Mathlib

/-!
Verification of the network-request correlation core: a shallow embedding in
Lean 4 of the request/event correlation pipeline (`eventsToMap`,
`eventsByRequestId`, `findHeader`, `getDocumentType`,
`partialRequestsToCompleteSummaries`, and the type-filter and point-ordering
stages), together with theorems settling the specified properties.

JavaScript values are embedded as follows: strings are `String`, numbers that
only pass through the pipeline (`time` fields) are `Int`, objects keyed by
strings or by event kinds are total functions returning a list or an `Option`
(a missing key is `[]` or `none`, matching undefined-tolerant access in the
source), and code that can throw is embedded in `Except Unit`.
-/

namespace NetReq

/-- A single HTTP header, `{ name, value }`. -/
structure Header where
  name : String
  value : String
deriving DecidableEq, Repr

/-- An execution point paired with a wall-clock time, `{ point, time }`. -/
structure TimeStampedPoint where
  point : String
  time : Int
deriving DecidableEq, Repr

/-- The four event kinds of the protocol: `request`, `response`,
`request-body`, `response-body`. -/
inductive EventKind where
  | request
  | response
  | requestBody
  | responseBody
deriving DecidableEq, Repr

/-- The payload of a network event, tagged by kind.  `request` carries
`requestUrl`, `requestMethod` and `requestHeaders`; `response` carries
`responseStatus` and `responseHeaders`; the body events carry nothing this
core reads. -/
inductive RequestEvent where
  | request (requestUrl : String) (requestMethod : String) (requestHeaders : List Header)
  | response (responseStatus : Nat) (responseHeaders : List Header)
  | requestBody
  | responseBody
deriving DecidableEq, Repr

/-- The `event.kind` discriminant of a `RequestEvent`. -/
def RequestEvent.kind : RequestEvent → EventKind
  | .request _ _ _ => .request
  | .response _ _ => .response
  | .requestBody => .requestBody
  | .responseBody => .responseBody

/-- One element of the flat event list: `{ id, point, time, event }`. -/
structure RequestEventInfo where
  id : String
  point : String
  time : Int
  event : RequestEvent
deriving DecidableEq, Repr

/-- One request record: `{ id, point, time, triggerPoint? }`. -/
structure RequestInfo where
  id : String
  point : String
  time : Int
  triggerPoint : Option TimeStampedPoint
deriving DecidableEq, Repr

/-- The derived summary of one complete exchange (source type `RequestSummary`). -/
structure RequestSummary where
  domain : String
  documentType : String
  «end» : Int
  hasResponseBody : Bool
  hasRequestBody : Bool
  id : String
  method : String
  name : String
  point : TimeStampedPoint
  queryParams : List (String × String)
  triggerPoint : Option TimeStampedPoint
  requestHeaders : List Header
  responseHeaders : List Header
  start : Int
  status : Nat
  time : Int
  type : String
  url : String
deriving DecidableEq, Repr

deriving instance DecidableEq for Except

/-! ## String helpers

The source uses JavaScript string primitives (`toLowerCase`, `split`, regexp
matching).  They are embedded here as structurally recursive functions on
`List Char` so that every definition evaluates by kernel reduction. -/

/-- `s.toLowerCase()` (ASCII case folding, which is all the pipeline relies on). -/
def toLowerStr (s : String) : String :=
  String.mk (s.data.map Char.toLower)

/-- Split a character list at every occurrence of `sep`
(JavaScript `s.split(sep)` for a single-character separator). -/
def splitOnChar (sep : Char) : List Char → List (List Char)
  | [] => [[]]
  | c :: rest =>
    if c = sep then [] :: splitOnChar sep rest
    else
      match splitOnChar sep rest with
      | h :: t => (c :: h) :: t
      | [] => [[c]]

/-- `pat` occurs at the head of `s`. -/
def startsWithList : List Char → List Char → Bool
  | [], _ => true
  | _ :: _, [] => false
  | a :: p, b :: s => a == b && startsWithList p s

/-- `pat` occurs somewhere in `l`. -/
def containsList (pat : List Char) : List Char → Bool
  | [] => startsWithList pat []
  | c :: rest => startsWithList pat (c :: rest) || containsList pat rest

/-- `s.match(/pat/) !== null` for a plain (alternation-free) pattern:
substring containment. -/
def hasSubstring (s pat : String) : Bool :=
  containsList pat.data s.data

/-- Strict lexicographic order on character lists (head-to-head by code point,
a strict prefix precedes its extensions), used to embed string comparison. -/
def lexLt : List Char → List Char → Bool
  | [], [] => false
  | [], _ :: _ => true
  | _ :: _, [] => false
  | a :: as, b :: bs => if a < b then true else if b < a then false else lexLt as bs

/-! ## Header utilities (source lines 50–51 and 100–104) -/

/-- `findHeader(headers, key)`: the first header whose lowercased name equals
the key, if any (`headers?.find(h => h.name.toLowerCase() === key)?.value`).
Note that only the stored name is lowercased, not the supplied key, and a miss
is `undefined` (`none`), not a string. -/
def findHeader (headers : List Header) (key : String) : Option String :=
  (headers.find? fun h => toLowerStr h.name == key).map Header.value

/-- The index of the last `','` or `';'` in a character list, if any.  This is
where the greedy regexp `/^(.*)[,;]/` of `getDocumentType` splits the match:
`.*` is greedy, so group 1 extends to the last delimiter. -/
def lastDelimIdx : List Char → Option Nat
  | [] => none
  | c :: rest =>
    match lastDelimIdx rest with
    | some i => some (i + 1)
    | none => if c = ',' ∨ c = ';' then some 0 else none

/-- `contentType.match(/^(.*)[,;]/)?.[1] || contentType`: the prefix of the
value up to (excluding) its last `,`/`;`, with JavaScript fallbacks — if there
is no delimiter, or group 1 is empty, the whole value is returned.  `.` in the
regexp does not match a newline, so the search stops at the first `'\n'`. -/
def chopContentType (ct : String) : String :=
  let p := ct.data.takeWhile fun c => decide (c ≠ '\n')
  match lastDelimIdx p with
  | some i => if i = 0 then ct else String.mk (p.take i)
  | none => ct

/-- `getDocumentType(headers)`: the `content-type` header with any data after
the last `,`/`;` chopped off, defaulting to `"unknown"` when the header is
absent or empty (`findHeader(...) || "unknown"`). -/
def getDocumentType (headers : List Header) : String :=
  let contentType :=
    match findHeader headers "content-type" with
    | some v => if v = "" then "unknown" else v
    | none => "unknown"
  chopContentType contentType

/-- `documentType?.split("/")?.[1] || documentType`: the second `/`-separated
segment of the MIME type, falling back to the whole string when there is no
`/` (or the segment is empty). -/
def deriveType (documentType : String) : String :=
  match (splitOnChar '/' documentType.data)[1]? with
  | some t => if t = [] then documentType else String.mk t
  | none => documentType

/-! ## URL decomposition

The source calls the platform URL constructor (`new URL(url)`), which is not
part of the reviewed material. -/

/-- The parts of a parsed URL that the source reads: `host`, `pathname` and
the raw query string. -/
structure URLRec where
  host : String
  pathname : String
  search : List Char
deriving DecidableEq, Repr

/-- Split a character list at the first `"://"`, returning the parts before
and after it. -/
def splitScheme : List Char → Option (List Char × List Char)
  | ':' :: '/' :: '/' :: rest => some ([], rest)
  | c :: rest => (splitScheme rest).map fun p => (c :: p.1, p.2)
  | [] => none

/-- Modelled from the spec: the URL decomposer (spec §4.2) stands in for the
platform `new URL(url)`, which is absent from the reviewed sources.  It
derives the host (authority up to the first `/`, `?` or `#`), the pathname
(defaulting to `"/"`), and the raw query string, and fails (`InvalidUrl`,
here `none`) when the string cannot be parsed as `scheme://host...`. -/
def parseURL (s : String) : Option URLRec :=
  match splitScheme s.data with
  | none => none
  | some (scheme, rest) =>
    if scheme = [] then none
    else if ¬ scheme.all Char.isAlpha then none
    else
      let hostCs := rest.takeWhile fun c => !(c == '/' || c == '?' || c == '#')
      if hostCs = [] then none
      else
        let after := rest.drop hostCs.length
        let pathCs := after.takeWhile fun c => !(c == '?' || c == '#')
        let search :=
          match after.drop pathCs.length with
          | '?' :: qs => qs.takeWhile fun c => !(c == '#')
          | _ => []
        some { host := String.mk hostCs,
               pathname := String.mk (if pathCs = [] then ['/'] else pathCs),
               search := search }

/-- Split one `key=value` query segment at its first `'='`; a segment without
`'='` has no explicit value. -/
def splitFirstEq : List Char → List Char × Option (List Char)
  | [] => ([], none)
  | c :: rest =>
    if c = '=' then ([], some rest)
    else
      let p := splitFirstEq rest
      (c :: p.1, p.2)

/-- Modelled from the spec: the ordered `(key, value)` pairs of a query string
(spec §4.2 — order preserved, duplicate keys kept), standing in for
`URLSearchParams.entries()`.  Empty `&`-segments are skipped; a segment
without `'='` yields an empty value. -/
def searchParamsEntries (q : List Char) : List (String × String) :=
  (splitOnChar '&' q).filterMap fun seg =>
    if seg = [] then none
    else
      let kv := splitFirstEq seg
      some (String.mk kv.1, String.mk (kv.2.getD []))

/-- `const host = (url) => new URL(url).host` — throws (`Except.error`) on an
unparseable URL. -/
def host (url : String) : Except Unit String :=
  match parseURL url with
  | some u => .ok u.host
  | none => .error ()

/-- `new URL(url).pathname.split("/").filter(f => f.length).pop() || ""`:
the last nonempty `/`-separated path segment, or `""`. -/
def name (url : String) : Except Unit String :=
  match parseURL url with
  | some u =>
    .ok (((((splitOnChar '/' u.pathname.data).map String.mk).filter
      fun s => decide (s ≠ "")).getLast?).getD "")
  | none => .error ()

/-- `Array.from(new URL(url).searchParams.entries())`. -/
def queryParams (url : String) : Except Unit (List (String × String)) :=
  match parseURL url with
  | some u => .ok (searchParamsEntries u.search)
  | none => .error ()

/-! ## Event grouping (source lines 76–87) -/

/-- `eventsToMap(events) = keyBy(events, e => e.event.kind)`: a kind-keyed
object built by iterating the list in order, each insertion overwriting the
previous entry for its key (lodash `keyBy`: the last element responsible for a
key wins).  An absent input (`keyBy(undefined)`) and an empty list both give
the empty object, i.e. the constantly-`none` function. -/
def eventsToMap (events : List RequestEventInfo) : EventKind → Option RequestEventInfo :=
  events.foldl (fun acc e => fun k => if k = e.event.kind then some e else acc k)
    fun _ => none

/-- `eventsByRequestId(events)`: `events.reduce` into an id-keyed object,
each event *prepended* to its id's bucket
(`acc[e.id] = [e, ...(acc[e.id] || [])]`).  A missing id has bucket `[]`. -/
def eventsByRequestId (events : List RequestEventInfo) : String → List RequestEventInfo :=
  events.foldl (fun acc e => fun i => if i = e.id then e :: acc i else acc i)
    fun _ => []

/-! ## The correlation pipeline (source lines 106–171) -/

/-- The completeness filter of the pipeline:
`!!r.events.request && !!r.events.response`. -/
def completenessCheck (evs : EventKind → Option RequestEventInfo) : Bool :=
  (evs EventKind.request).isSome && (evs EventKind.response).isSome

/-- The summary-building arrow of the pipeline's second `.map`.  The record
`r` has passed the completeness filter, so the `request` and `response`
entries are present; the URL helpers can throw, which propagates
(`Except.error`).  The impossible branches (entry present but of the wrong
kind — excluded by `eventsToMap` keying on the kind) also map to `error`. -/
def summarize (r : RequestInfo) (evs : EventKind → Option RequestEventInfo) :
    Except Unit RequestSummary :=
  match evs EventKind.request, evs EventKind.response with
  | some requestEv, some responseEv =>
    match requestEv.event, responseEv.event with
    | RequestEvent.request requestUrl requestMethod requestHeaders,
      RequestEvent.response responseStatus responseHeaders =>
      let documentType := getDocumentType responseHeaders
      match host requestUrl, name requestUrl, queryParams requestUrl with
      | .ok domain, .ok nm, .ok qp =>
        .ok { documentType := documentType,
              domain := domain,
              «end» := responseEv.time,
              hasResponseBody := (evs EventKind.responseBody).isSome,
              hasRequestBody := (evs EventKind.requestBody).isSome,
              id := r.id,
              method := requestMethod,
              name := nm,
              point := { point := r.point, time := r.time },
              queryParams := qp,
              requestHeaders := requestHeaders,
              responseHeaders := responseHeaders,
              start := requestEv.time,
              status := responseStatus,
              time := responseEv.time - requestEv.time,
              triggerPoint := r.triggerPoint,
              type := deriveType documentType,
              url := requestUrl }
      | _, _, _ => .error ()
    | _, _ => .error ()
  | _, _ => .error ()

/-- JavaScript `Array.prototype.map` over a callback that can throw: the first
exception aborts the whole traversal. -/
def mapExcept {α β : Type} (f : α → Except Unit β) : List α → Except Unit (List β)
  | [] => .ok []
  | x :: xs =>
    match f x with
    | .error e => .error e
    | .ok y =>
      match mapExcept f xs with
      | .error e => .error e
      | .ok ys => .ok (y :: ys)

/-- The pipeline up to (and excluding) the type filter: attach each record's
kind-keyed event map, keep the complete exchanges, and build their summaries. -/
def summariesBeforeFiltering (requests : List RequestInfo)
    (events : List RequestEventInfo) : Except Unit (List RequestSummary) :=
  mapExcept (fun p => summarize p.1 p.2)
    ((requests.map fun r => (r, eventsToMap (eventsByRequestId events r.id))).filter
      fun p => completenessCheck p.2)

/-- The row filter of the pipeline (source lines 147–167), reading
`row.type`: keep everything when the requested-type set is empty, otherwise
keep exact matches and the three aliased fuzzy matches (`xhr`→`/json/`,
`font`→`/(woff|ttf)/`, `img`→`/(svg|jpeg|png|gif)/`). -/
def typeFilter (types : List String) (t : String) : Bool :=
  if types.isEmpty then true
  else if types.contains t then true
  else if types.contains "xhr" && hasSubstring t "json" then true
  else if types.contains "font" && (hasSubstring t "woff" || hasSubstring t "ttf") then true
  else if types.contains "img" &&
      (hasSubstring t "svg" || hasSubstring t "jpeg" ||
       hasSubstring t "png" || hasSubstring t "gif") then true
  else false

/-- Modelled from the spec: `compareNumericStrings` lives in
`protocol/utils`, outside the reviewed sources.  Per spec §4.1 it compares
decimal digit strings as numbers: different lengths order by length, equal
lengths order lexicographically; the result is negative/zero/positive. -/
def compareNumericStrings (a b : String) : Int :=
  if a.length < b.length then -1
  else if b.length < a.length then 1
  else if lexLt a.data b.data then -1
  else if lexLt b.data a.data then 1
  else 0

/-- The ordering relation used by the final sort:
`compareNumericStrings(a.point.point, b.point.point) <= 0`. -/
def summaryLE (a b : RequestSummary) : Prop :=
  compareNumericStrings a.point.point b.point.point ≤ 0

instance : DecidableRel summaryLE :=
  fun _ _ => inferInstanceAs (Decidable (_ ≤ _))

/-- `partialRequestsToCompleteSummaries(requests, events, types)`: the full
pipeline — group, correlate, type-filter, then sort ascending by point.  The
sort embeds the engine's stable comparator sort as a stable insertion sort,
which agrees with every stable sort for this total preorder. -/
def partialRequestsToCompleteSummaries (requests : List RequestInfo)
    (events : List RequestEventInfo) (types : List String) :
    Except Unit (List RequestSummary) :=
  match summariesBeforeFiltering requests events with
  | .error e => .error e
  | .ok summaries =>
    .ok (List.insertionSort summaryLE (summaries.filter fun row => typeFilter types row.type))

/-- The specification-side completeness condition for an id: the event list
holds both a request-kind and a response-kind event with that id. -/
def hasCompleteExchange (events : List RequestEventInfo) (i : String) : Bool :=
  (events.any fun e => decide (e.id = i) && decide (e.event.kind = EventKind.request)) &&
  (events.any fun e => decide (e.id = i) && decide (e.event.kind = EventKind.response))

/-! ## Helper lemmas about the grouping stage -/

theorem eventsByRequestId_foldl (events : List RequestEventInfo)
    (acc : String → List RequestEventInfo) (i : String) :
    (events.foldl (fun acc e => fun i => if i = e.id then e :: acc i else acc i) acc) i =
      (events.filter fun e => decide (e.id = i)).reverse ++ acc i := by
  induction events generalizing acc with
  | nil => simp
  | cons e es ih =>
    rw [List.foldl_cons, ih]
    by_cases h : e.id = i
    · subst h
      simp [List.filter_cons]
    · simp [List.filter_cons, h, Ne.symm h]

/-- The bucket an id gets from `eventsByRequestId` holds exactly that id's
events, in reverse arrival order (each arrival is prepended). -/
theorem eventsByRequestId_eq (events : List RequestEventInfo) (i : String) :
    eventsByRequestId events i = (events.filter fun e => decide (e.id = i)).reverse := by
  unfold eventsByRequestId
  rw [eventsByRequestId_foldl]
  simp

/-- `eventsToMap` (lodash `keyBy`) keeps, for each kind, the last list element
of that kind — equivalently the first element of the reversed list. -/
theorem eventsToMap_eq (l : List RequestEventInfo) (k : EventKind) :
    eventsToMap l k = l.reverse.find? fun e => decide (e.event.kind = k) := by
  induction l using List.reverseRecOn with
  | nil => rfl
  | append_singleton es e ih =>
    unfold eventsToMap at *
    rw [List.foldl_append, List.foldl_cons, List.foldl_nil, List.reverse_append]
    simp only [List.reverse_cons, List.reverse_nil, List.nil_append, List.singleton_append,
      List.find?_cons]
    by_cases h : e.event.kind = k
    · subst h
      simp
    · simp [h, Ne.symm h, ih]

/-- Composed grouping: the representative of kind `k` for id `i` is the
*first* event with that id and kind in the original input order (the bucket
reversal and keyBy's last-wins cancel out). -/
theorem eventsToMap_eventsByRequestId (events : List RequestEventInfo) (i : String)
    (k : EventKind) :
    eventsToMap (eventsByRequestId events i) k =
      (events.filter fun e => decide (e.id = i)).find? fun e => decide (e.event.kind = k) := by
  rw [eventsByRequestId_eq, eventsToMap_eq, List.reverse_reverse]

theorem isSome_eventsToMap_iff (events : List RequestEventInfo) (i : String) (k : EventKind) :
    (eventsToMap (eventsByRequestId events i) k).isSome =
      (events.any fun e => decide (e.id = i) && decide (e.event.kind = k)) := by
  rw [eventsToMap_eventsByRequestId, Bool.eq_iff_iff]
  simp only [List.find?_isSome, List.any_eq_true, List.mem_filter, Bool.and_eq_true]
  constructor
  · rintro ⟨e, ⟨he, hid⟩, hk⟩
    exact ⟨e, he, hid, hk⟩
  · rintro ⟨e, he, hid, hk⟩
    exact ⟨e, ⟨he, hid⟩, hk⟩

theorem completenessCheck_eq (events : List RequestEventInfo) (i : String) :
    completenessCheck (eventsToMap (eventsByRequestId events i)) =
      hasCompleteExchange events i := by
  unfold completenessCheck hasCompleteExchange
  rw [isSome_eventsToMap_iff, isSome_eventsToMap_iff]

/-! ## Helper lemmas about summary construction -/

theorem summarize_ok_fields {r : RequestInfo} {m : EventKind → Option RequestEventInfo}
    {s : RequestSummary} (h : summarize r m = .ok s) :
    s.id = r.id ∧ s.point = { point := r.point, time := r.time } ∧
      s.hasRequestBody = (m EventKind.requestBody).isSome ∧
      s.hasResponseBody = (m EventKind.responseBody).isSome := by
  unfold summarize at h
  repeat' split at h
  all_goals cases h
  exact ⟨rfl, rfl, rfl, rfl⟩

theorem summarize_error_of_badurl {r : RequestInfo} {m : EventKind → Option RequestEventInfo}
    {ev : RequestEventInfo} {url mth : String} {hdrs : List Header}
    (hreq : m EventKind.request = some ev)
    (hev : ev.event = RequestEvent.request url mth hdrs)
    (hresp : (m EventKind.response).isSome = true)
    (hbad : parseURL url = none) :
    summarize r m = .error () := by
  rcases Option.isSome_iff_exists.mp hresp with ⟨ev2, hev2⟩
  rcases ev with ⟨i1, p1, t1, e1⟩
  rcases ev2 with ⟨i2, p2, t2, e2⟩
  simp only at hev
  subst hev
  have hhost : host url = Except.error () := by unfold host; rw [hbad]
  cases e2 <;> simp only [summarize, hreq, hev2, hhost]

theorem mapExcept_ok_iff {α β : Type} (f : α → Except Unit β) :
    ∀ (xs : List α) (l : List β),
      mapExcept f xs = .ok l ↔ List.Forall₂ (fun x y => f x = .ok y) xs l := by
  intro xs
  induction xs with
  | nil =>
    intro l
    constructor
    · intro h
      cases l with
      | nil => exact List.Forall₂.nil
      | cons y ys => simp [mapExcept] at h
    · intro h
      cases h
      rfl
  | cons x xs ih =>
    intro l
    constructor
    · intro h
      unfold mapExcept at h
      cases hfx : f x with
      | error e => rw [hfx] at h; cases h
      | ok y =>
        rw [hfx] at h
        cases hrest : mapExcept f xs with
        | error e => rw [hrest] at h; cases h
        | ok ys =>
          rw [hrest] at h
          cases h
          exact List.Forall₂.cons hfx ((ih ys).mp hrest)
    · intro h
      cases h with
      | cons hxy hrest =>
        unfold mapExcept
        rw [hxy, (ih _).mpr hrest]

theorem mapExcept_error_of_mem {α β : Type} (f : α → Except Unit β) {x : α}
    {xs : List α} (hmem : x ∈ xs) (hfx : f x = .error ()) :
    mapExcept f xs = .error () := by
  induction xs with
  | nil => cases hmem
  | cons a as ih =>
    unfold mapExcept
    rcases List.mem_cons.mp hmem with rfl | hmem'
    · rw [hfx]
    · cases hfa : f a with
      | error e => cases e; rfl
      | ok y => rw [ih hmem']

theorem countP_forall2 {α β : Type} (R : α → β → Prop) (p : α → Bool) (q : β → Bool)
    (H : ∀ a b, R a b → q b = p a) :
    ∀ {xs : List α} {ys : List β}, List.Forall₂ R xs ys → ys.countP q = xs.countP p := by
  intro xs ys h
  induction h with
  | nil => rfl
  | cons hr _ ih => simp [List.countP_cons, ih, H _ _ hr]

theorem forall2_exists_left {α β : Type} {R : α → β → Prop} {xs : List α} {ys : List β}
    (h : List.Forall₂ R xs ys) {b : β} (hb : b ∈ ys) : ∃ a ∈ xs, R a b := by
  induction h with
  | nil => cases hb
  | cons hr _ ih =>
    rcases List.mem_cons.mp hb with rfl | hb'
    · exact ⟨_, List.mem_cons_self _ _, hr⟩
    · rcases ih hb' with ⟨a, ha, har⟩
      exact ⟨a, List.mem_cons_of_mem _ ha, har⟩

theorem countP_and_const {α : Type} (l : List α) (p : α → Bool) (c : Bool) :
    (l.countP fun a => p a && c) = if c then l.countP p else 0 := by
  cases c <;> simp



/-- Counting summaries before the type filter: every surviving record
contributes one summary with its own id, and a record survives exactly when
its id has a complete exchange in the event list. -/
theorem countP_summariesBeforeFiltering {requests : List RequestInfo}
    {events : List RequestEventInfo} {l : List RequestSummary}
    (h : summariesBeforeFiltering requests events = .ok l) (i : String) :
    l.countP (fun s => decide (s.id = i)) =
      if hasCompleteExchange events i then requests.countP (fun r => decide (r.id = i))
      else 0 := by
  have hf := (mapExcept_ok_iff _ _ _).mp h
  have h1 : l.countP (fun s => decide (s.id = i)) =
      ((requests.map fun r => (r, eventsToMap (eventsByRequestId events r.id))).filter
        fun p => completenessCheck p.2).countP fun p => decide (p.1.id = i) := by
    refine countP_forall2 _ _ _ ?_ hf
    intro p s hps
    have := (summarize_ok_fields hps).1
    simp [this]
  rw [h1, List.countP_filter, List.countP_map]
  have h2 : requests.countP
      ((fun p : RequestInfo × (EventKind → Option RequestEventInfo) =>
          decide (p.1.id = i) && completenessCheck p.2) ∘
        fun r => (r, eventsToMap (eventsByRequestId events r.id))) =
      requests.countP fun r => decide (r.id = i) && hasCompleteExchange events i := by
    refine List.countP_congr ?_
    intro r _
    simp only [Function.comp_apply, completenessCheck_eq, Bool.and_eq_true, decide_eq_true_eq]
    constructor
    · rintro ⟨rfl, hc⟩
      exact ⟨rfl, hc⟩
    · rintro ⟨rfl, hc⟩
      exact ⟨rfl, hc⟩
  rw [h2, countP_and_const]

/-! ## Helper lemmas about the ordering stage -/

theorem string_ext {a b : String} (h : a.data = b.data) : a = b := congrArg String.mk h

theorem lexLt_irrefl : ∀ l : List Char, lexLt l l = false
  | [] => rfl
  | c :: cs => by simp [lexLt, lexLt_irrefl cs]

theorem lexLt_trans : ∀ {a b c : List Char},
    lexLt a b = true → lexLt b c = true → lexLt a c = true
  | [], [], _, hab, _ => by cases hab
  | [], _ :: _, [], _, hbc => by cases hbc
  | [], _ :: _, _ :: _, _, _ => rfl
  | _ :: _, [], _, hab, _ => by cases hab
  | _ :: _, _ :: _, [], _, hbc => by cases hbc
  | x :: xs, y :: ys, z :: zs, hab, hbc => by
    simp only [lexLt] at *
    by_cases hxy : x < y
    · by_cases hyz : y < z
      · simp [lt_trans hxy hyz]
      · by_cases hzy : z < y
        · simp [hyz, hzy] at hbc
        · have : y = z := le_antisymm (not_lt.mp hzy) (not_lt.mp hyz)
          subst this
          simp [hxy]
    · by_cases hyx : y < x
      · simp [hxy, hyx] at hab
      · have : x = y := le_antisymm (not_lt.mp hyx) (not_lt.mp hxy)
        subst this
        simp only [lt_irrefl, if_false] at hab
        by_cases hyz : x < z
        · simp [hyz]
        · by_cases hzy : z < x
          · simp [hyz, hzy] at hbc
          · have : x = z := le_antisymm (not_lt.mp hzy) (not_lt.mp hyz)
            subst this
            simp only [lt_irrefl, if_false] at hbc ⊢
            exact lexLt_trans hab hbc

theorem lexLt_connex : ∀ {a b : List Char},
    lexLt a b = false → lexLt b a = false → a = b
  | [], [], _, _ => rfl
  | [], _ :: _, hab, _ => by cases hab
  | _ :: _, [], _, hba => by cases hba
  | x :: xs, y :: ys, hab, hba => by
    simp only [lexLt] at hab hba
    by_cases hxy : x < y
    · simp [hxy] at hab
    · by_cases hyx : y < x
      · simp [hxy, hyx] at hba
      · have hxeq : x = y := le_antisymm (not_lt.mp hyx) (not_lt.mp hxy)
        subst hxeq
        simp only [lt_irrefl, if_false] at hab hba
        rw [lexLt_connex hab hba]

/-- The order `compareNumericStrings a b ≤ 0` unfolded: shorter, or same
length and lexicographically at most. -/
theorem compareNumericStrings_le_iff (a b : String) :
    compareNumericStrings a b ≤ 0 ↔
      (a.length < b.length ∨
        (a.length = b.length ∧ (lexLt a.data b.data = true ∨ a = b))) := by
  unfold compareNumericStrings
  split_ifs with h1 h2 h3 h4
  · simp [h1]
  · have : ¬ a.length = b.length := by omega
    simp [h1, this]
  · have hlen : a.length = b.length := by omega
    simp [h1, hlen, h3]
  · have hlen : a.length = b.length := by omega
    have hne : a ≠ b := by
      intro h
      subst h
      rw [lexLt_irrefl] at h4
      cases h4
    simp [h1, hlen, h3, hne]
  · have hlen : a.length = b.length := by omega
    have hab : a = b :=
      string_ext (lexLt_connex (Bool.eq_false_iff.mpr h3) (Bool.eq_false_iff.mpr h4))
    simp [hlen, hab]

instance : IsTrans RequestSummary summaryLE := by
  constructor
  intro a b c hab hbc
  unfold summaryLE at *
  rw [compareNumericStrings_le_iff] at *
  rcases hab with h1 | ⟨h1, h1'⟩ <;> rcases hbc with h2 | ⟨h2, h2'⟩
  · exact Or.inl (lt_trans h1 h2)
  · exact Or.inl (h2 ▸ h1)
  · exact Or.inl (h1 ▸ h2)
  · refine Or.inr ⟨h1.trans h2, ?_⟩
    rcases h1' with h1' | h1' <;> rcases h2' with h2' | h2'
    · exact Or.inl (lexLt_trans h1' h2')
    · exact Or.inl (h2' ▸ h1')
    · exact Or.inl (h1' ▸ h2')
    · exact Or.inr (h1'.trans h2')

instance : IsTotal RequestSummary summaryLE := by
  constructor
  intro a b
  unfold summaryLE
  rw [compareNumericStrings_le_iff, compareNumericStrings_le_iff]
  rcases Nat.lt_trichotomy a.point.point.length b.point.point.length with h | h | h
  · exact Or.inl (Or.inl h)
  · cases hl : lexLt a.point.point.data b.point.point.data
    · cases hl2 : lexLt b.point.point.data a.point.point.data
      · exact Or.inl (Or.inr ⟨h, Or.inr (string_ext (lexLt_connex hl hl2))⟩)
      · exact Or.inr (Or.inr ⟨h.symm, Or.inl rfl⟩)
    · exact Or.inl (Or.inr ⟨h, Or.inl rfl⟩)
  · exact Or.inr (Or.inl h)

/-- Any successful run of the full pipeline returns a list that is pairwise
ordered by the point comparator. -/
theorem pipeline_sorted {requests : List RequestInfo} {events : List RequestEventInfo}
    {types : List String} {l : List RequestSummary}
    (h : partialRequestsToCompleteSummaries requests events types = .ok l) :
    l.Pairwise summaryLE := by
  unfold partialRequestsToCompleteSummaries at h
  cases hpre : summariesBeforeFiltering requests events with
  | error e => rw [hpre] at h; cases h
  | ok s =>
    rw [hpre] at h
    cases h
    exact List.sorted_insertionSort summaryLE _


/-! ## Helper lemmas: content-type chopping -/

theorem lastDelimIdx_none {l : List Char} (h : ∀ c ∈ l, ¬(c = ',' ∨ c = ';')) :
    lastDelimIdx l = none := by
  induction l with
  | nil => rfl
  | cons c cs ih =>
    unfold lastDelimIdx
    rw [ih fun x hx => h x (List.mem_cons_of_mem _ hx)]
    simp [h c (List.mem_cons_self _ _)]

theorem lastDelimIdx_concat {q p : List Char} {d : Char} (hd : d = ',' ∨ d = ';')
    (hp : ∀ c ∈ p, ¬(c = ',' ∨ c = ';')) :
    lastDelimIdx (q ++ d :: p) = some q.length := by
  induction q with
  | nil =>
    rw [List.nil_append]
    unfold lastDelimIdx
    rw [lastDelimIdx_none hp]
    simp [hd]
  | cons c cs ih =>
    rw [List.cons_append]
    unfold lastDelimIdx
    rw [ih]
    simp

/-- What `chopContentType` computes on a value decomposing as `q ++ d :: p`
with `d` the *last* delimiter: the characters before that last delimiter
(everything else, including any earlier parameters inside `q`, is kept). -/
theorem chopContentType_eq {ct : String} {q p : List Char} {d : Char}
    (hsplit : ct.data = q ++ d :: p) (hd : d = ',' ∨ d = ';')
    (hq : q ≠ []) (hqn : ∀ c ∈ q, c ≠ '\n')
    (hp : ∀ c ∈ p, ¬(c = ',' ∨ c = ';') ∧ c ≠ '\n') :
    chopContentType ct = String.mk q := by
  unfold chopContentType
  have hall : ∀ c ∈ ct.data, (decide (c ≠ '\n')) = true := by
    intro c hc
    rw [hsplit] at hc
    rcases List.mem_append.mp hc with hcq | hcp
    · simp [hqn c hcq]
    · rcases List.mem_cons.mp hcp with rfl | hcp'
      · rcases hd with rfl | rfl <;> decide
      · simp [(hp c hcp').2]
  have hlen : ¬ q.length = 0 := fun h => hq (List.eq_nil_of_length_eq_zero h)
  rw [List.takeWhile_eq_self_iff.mpr hall, hsplit]
  simp only [lastDelimIdx_concat hd fun c hc => (hp c hc).1, hlen, if_false, List.take_left]

/-! ## Helper lemmas: header lookup, the type filter, and filtering counts -/

theorem findHeader_none_iff (headers : List Header) (key : String) :
    findHeader headers key = none ↔ ∀ h ∈ headers, toLowerStr h.name ≠ key := by
  unfold findHeader
  rw [Option.map_eq_none']
  rw [List.find?_eq_none]
  simp

theorem findHeader_some_iff (headers : List Header) (key : String) (v : String) :
    findHeader headers key = some v ↔
      ∃ pre hd post, headers = pre ++ hd :: post ∧ toLowerStr hd.name = key ∧
        hd.value = v ∧ ∀ h ∈ pre, toLowerStr h.name ≠ key := by
  unfold findHeader
  rw [Option.map_eq_some']
  constructor
  · rintro ⟨hd, hfind, hval⟩
    rw [List.find?_eq_some] at hfind
    rcases hfind with ⟨hbeq, pre, post, hsplit, hpre⟩
    refine ⟨pre, hd, post, hsplit, by simpa using hbeq, hval, ?_⟩
    intro h hh
    have := hpre h hh
    simpa using this
  · rintro ⟨pre, hd, post, hsplit, hname, hval, hpre⟩
    refine ⟨hd, ?_, hval⟩
    rw [List.find?_eq_some]
    refine ⟨by simpa using hname, pre, post, hsplit, ?_⟩
    intro h hh
    simpa using hpre h hh

theorem typeFilter_iff (types : List String) (t : String) :
    typeFilter types t = true ↔
      (types = [] ∨ t ∈ types ∨
        ("xhr" ∈ types ∧ hasSubstring t "json" = true) ∨
        ("font" ∈ types ∧ (hasSubstring t "woff" = true ∨ hasSubstring t "ttf" = true)) ∨
        ("img" ∈ types ∧
          (hasSubstring t "svg" = true ∨ hasSubstring t "jpeg" = true ∨
           hasSubstring t "png" = true ∨ hasSubstring t "gif" = true))) := by
  unfold typeFilter
  split_ifs with h1 h2 h3 h4 h5 <;> (simp_all; try tauto)

theorem count_filter_eq {α : Type} [DecidableEq α] (l : List α) (p : α → Bool) (a : α) :
    (l.filter p).count a = if p a then l.count a else 0 := by
  rw [List.count_eq_countP, List.countP_filter]
  have h : (l.countP fun x => x == a && p x) = l.countP fun x => (x == a) && p a := by
    refine List.countP_congr ?_
    intro x _
    simp only [Bool.and_eq_true, beq_iff_eq]
    constructor
    · rintro ⟨rfl, hp⟩
      exact ⟨rfl, hp⟩
    · rintro ⟨rfl, hp⟩
      exact ⟨rfl, hp⟩
  rw [h, countP_and_const, List.count_eq_countP]

theorem countP_pipeline_eq_zero {requests : List RequestInfo}
    {events : List RequestEventInfo} {types : List String} {l : List RequestSummary}
    (h : partialRequestsToCompleteSummaries requests events types = .ok l)
    (q : RequestSummary → Bool)
    (hpre : ∀ l0, summariesBeforeFiltering requests events = .ok l0 → l0.countP q = 0) :
    l.countP q = 0 := by
  unfold partialRequestsToCompleteSummaries at h
  cases hpre' : summariesBeforeFiltering requests events with
  | error e => rw [hpre'] at h; cases h
  | ok s =>
    rw [hpre'] at h
    cases h
    rw [(List.perm_insertionSort summaryLE _).countP_eq]
    rw [List.countP_eq_zero]
    intro a ha
    have has : a ∈ s := (List.mem_filter.mp ha).1
    exact List.countP_eq_zero.mp (hpre s hpre') a has

end NetReq
namespace NetReq

/-! ## Concrete scenarios -/

/-- End-to-end scenario (spec §8): id "1", request-open event. -/
def e7req : RequestEventInfo :=
  { id := "1", point := "5", time := 100,
    event := .request "https://a.test/x?y=1" "GET" [] }

/-- End-to-end scenario: id "1", response-headers event. -/
def e7resp : RequestEventInfo :=
  { id := "1", point := "12", time := 250,
    event := .response 200
      [{ name := "content-type", value := "application/json; charset=utf-8" }] }

/-- End-to-end scenario: id "2", request-open event only. -/
def e7req2 : RequestEventInfo :=
  { id := "2", point := "3", time := 300,
    event := .request "https://b.test/q" "GET" [] }

/-- End-to-end scenario: the request record for id "1" (its `point` is the
request-open point "5", the only point the scenario supplies for the record). -/
def r7a : RequestInfo := { id := "1", point := "5", time := 100, triggerPoint := none }

/-- End-to-end scenario: the request record for id "2". -/
def r7b : RequestInfo := { id := "2", point := "3", time := 300, triggerPoint := none }

/-- The single summary the pipeline derives in the end-to-end scenario. -/
def s7 : RequestSummary :=
  { domain := "a.test",
    documentType := "application/json",
    «end» := 250,
    hasResponseBody := false,
    hasRequestBody := false,
    id := "1",
    method := "GET",
    name := "x",
    point := { point := "5", time := 100 },
    queryParams := [("y", "1")],
    triggerPoint := none,
    requestHeaders := [],
    responseHeaders := [{ name := "content-type", value := "application/json; charset=utf-8" }],
    start := 100,
    status := 200,
    time := 150,
    type := "json",
    url := "https://a.test/x?y=1" }

/-- Duplicate-kind scenario: first request-open event for id "1". -/
def dupA : RequestEventInfo :=
  { id := "1", point := "1", time := 1, event := .request "https://a.test/1" "GET" [] }

/-- Duplicate-kind scenario: second request-open event for id "1". -/
def dupB : RequestEventInfo :=
  { id := "1", point := "2", time := 2, event := .request "https://a.test/2" "POST" [] }

/-- Error-isolation scenario: request-open event for id "1" with an
unparseable URL. -/
def e5bad : RequestEventInfo :=
  { id := "1", point := "1", time := 1, event := .request "not a url" "GET" [] }

/-- Error-isolation scenario: response for id "1". -/
def e5badResp : RequestEventInfo :=
  { id := "1", point := "2", time := 2, event := .response 200 [] }

/-- Error-isolation scenario: well-formed request-open event for id "2". -/
def e5good : RequestEventInfo :=
  { id := "2", point := "3", time := 3, event := .request "https://b.test/p" "GET" [] }

/-- Error-isolation scenario: response for id "2". -/
def e5goodResp : RequestEventInfo :=
  { id := "2", point := "4", time := 4, event := .response 200 [] }

/-- Error-isolation scenario: record for id "1" (the bad URL). -/
def r5a : RequestInfo := { id := "1", point := "1", time := 1, triggerPoint := none }

/-- Error-isolation scenario: record for id "2" (the good exchange). -/
def r5b : RequestInfo := { id := "2", point := "3", time := 3, triggerPoint := none }

/-- Ordering scenario: a complete exchange for one id. -/
def mkExchange (i p : String) (t : Int) : List RequestEventInfo :=
  [{ id := i, point := p, time := t, event := .request ("https://h.test/" ++ i) "GET" [] },
   { id := i, point := p, time := t, event := .response 200 [] }]

/-- Ordering scenario: three records with points "100", "20", "9". -/
def r8 : List RequestInfo :=
  [{ id := "a", point := "100", time := 1, triggerPoint := none },
   { id := "b", point := "20", time := 2, triggerPoint := none },
   { id := "c", point := "9", time := 3, triggerPoint := none }]

/-- Ordering scenario: complete exchanges for all three ids. -/
def e8 : List RequestEventInfo :=
  mkExchange "a" "100" 1 ++ mkExchange "b" "20" 2 ++ mkExchange "c" "9" 3

/-- A request record whose id matches no event at all. -/
def rz : RequestInfo := { id := "zzz", point := "7", time := 0, triggerPoint := none }

/-! ## Claims -/

/-- C1: before type filtering, each request record yields a summary exactly
when its id's grouped events contain both a request-kind and a response-kind
event (counted per id: a complete id contributes one summary per record
bearing it, an incomplete id contributes none), and body events only set the
`hasRequestBody`/`hasResponseBody` booleans of the summaries. -/
theorem claim1_summary_iff_complete (requests : List RequestInfo)
    (events : List RequestEventInfo) (l : List RequestSummary)
    (h : summariesBeforeFiltering requests events = .ok l) :
    (∀ i : String, l.countP (fun s => decide (s.id = i)) =
      if hasCompleteExchange events i then requests.countP (fun r => decide (r.id = i))
      else 0) ∧
    (∀ s ∈ l,
      s.hasRequestBody = (events.any fun e =>
        decide (e.id = s.id) && decide (e.event.kind = EventKind.requestBody)) ∧
      s.hasResponseBody = (events.any fun e =>
        decide (e.id = s.id) && decide (e.event.kind = EventKind.responseBody))) := by
  refine ⟨fun i => countP_summariesBeforeFiltering h i, ?_⟩
  intro s hs
  have hf := (mapExcept_ok_iff _ _ _).mp h
  obtain ⟨p, hp, hps⟩ := forall2_exists_left hf hs
  obtain ⟨hpm, _hc⟩ := List.mem_filter.mp hp
  obtain ⟨r, hr, hrp⟩ := List.mem_map.mp hpm
  subst hrp
  obtain ⟨hid, _hpt, hreqb, hrespb⟩ := summarize_ok_fields hps
  rw [hid, hreqb, hrespb, isSome_eventsToMap_iff, isSome_eventsToMap_iff]
  exact ⟨rfl, rfl⟩

/-- C1 witness: concrete instance of the claim at the end-to-end scenario. -/
theorem claim1_witness :
    ([s7].countP fun s => decide (s.id = "1")) =
      (if hasCompleteExchange [e7req, e7resp, e7req2] "1"
       then [r7a, r7b].countP fun r => decide (r.id = "1") else 0) ∧
    s7.hasRequestBody = ([e7req, e7resp, e7req2].any fun e =>
      decide (e.id = s7.id) && decide (e.event.kind = EventKind.requestBody)) := by
  have h := claim1_summary_iff_complete [r7a, r7b] [e7req, e7resp, e7req2] [s7] (by decide)
  exact ⟨h.1 "1", (h.2 s7 (by decide)).1⟩
/-- C2 counterexample: with two request-kind events for id "1" in input
order `[dupA, dupB]`, the chosen representative is `dupA`, the *earlier*
one, not the later `dupB` the claim predicts. -/
theorem claim2_counterexample :
    eventsToMap (eventsByRequestId [dupA, dupB] "1") EventKind.request = some dupA ∧
      eventsToMap (eventsByRequestId [dupA, dupB] "1") EventKind.request ≠ some dupB := by
  decide

/-- C2 amended: the per-kind representative chosen by `eventsByRequestId`
followed by `eventsToMap` is the event of that kind occurring *earliest* in
the original input sequence (the prepend-reversal of the bucket and keyBy's
last-write-wins cancel out to first-write-wins). -/
theorem claim2_amended (events : List RequestEventInfo) (i : String) (k : EventKind) :
    eventsToMap (eventsByRequestId events i) k =
      (events.filter fun e => decide (e.id = i)).find? fun e => decide (e.event.kind = k) :=
  eventsToMap_eventsByRequestId events i k

/-- C3 counterexample: the bucket for id "1" is `[dupB, dupA]`, the reverse
of the original relative order `[dupA, dupB]` the claim requires. -/
theorem claim3_counterexample :
    eventsByRequestId [dupA, dupB] "1" = [dupB, dupA] ∧
      eventsByRequestId [dupA, dupB] "1" ≠ [dupA, dupB] := by
  decide

/-- C3 amended: `eventsByRequestId` maps each id to that id's events in
*reverse* of their original relative input order (each arrival is prepended
to the bucket). -/
theorem claim3_amended (events : List RequestEventInfo) (i : String) :
    eventsByRequestId events i = (events.filter fun e => decide (e.id = i)).reverse :=
  eventsByRequestId_eq events i

/-- C4 counterexample: a supplied key containing uppercase letters finds
nothing even though a case-insensitively equal header is stored, and a miss
is `none` (undefined), not the string "not found". -/
theorem claim4_counterexample :
    findHeader [{ name := "Content-Type", value := "text/html" }] "Content-Type" = none ∧
      findHeader [] "accept" ≠ some "not found" := by
  decide

/-- C4 amended: `findHeader` lowercases only the *stored* header name and
compares it with the key exactly as supplied; when some header matches it
returns the first matching header's value, and when none matches it returns
`none` (undefined), not "not found". -/
theorem claim4_amended (headers : List Header) (key : String) :
    (findHeader headers key = none ↔ ∀ h ∈ headers, toLowerStr h.name ≠ key) ∧
    (∀ v, findHeader headers key = some v ↔
      ∃ pre hd post, headers = pre ++ hd :: post ∧ toLowerStr hd.name = key ∧
        hd.value = v ∧ ∀ h ∈ pre, toLowerStr h.name ≠ key) :=
  ⟨findHeader_none_iff headers key, fun v => findHeader_some_iff headers key v⟩

/-- C5 counterexample: one record with an unparseable request URL aborts the
whole derivation — the pipeline returns an error, so the other id's complete,
well-formed exchange yields no summary either, contradicting the claim that
only the malformed record is dropped. -/
theorem claim5_counterexample :
    partialRequestsToCompleteSummaries [r5a, r5b] [e5bad, e5badResp, e5good, e5goodResp] [] =
      .error () := by
  decide

/-- C5 amended: an unparseable request URL on any record that passes the
completeness filter is *not* isolated: the exception propagates and the whole
pipeline returns an error (no summaries at all), whatever the other records
contain. -/
theorem claim5_amended (requests : List RequestInfo) (events : List RequestEventInfo)
    (types : List String) (r : RequestInfo) (ev : RequestEventInfo)
    (url mth : String) (hdrs : List Header)
    (hr : r ∈ requests)
    (hreq : eventsToMap (eventsByRequestId events r.id) EventKind.request = some ev)
    (hev : ev.event = RequestEvent.request url mth hdrs)
    (hresp : (eventsToMap (eventsByRequestId events r.id) EventKind.response).isSome = true)
    (hbad : parseURL url = none) :
    partialRequestsToCompleteSummaries requests events types = .error () := by
  have hsum : summarize r (eventsToMap (eventsByRequestId events r.id)) = .error () :=
    summarize_error_of_badurl hreq hev hresp hbad
  have hmem : (r, eventsToMap (eventsByRequestId events r.id)) ∈
      ((requests.map fun r => (r, eventsToMap (eventsByRequestId events r.id))).filter
        fun p => completenessCheck p.2) := by
    apply List.mem_filter.mpr
    refine ⟨List.mem_map.mpr ⟨r, hr, rfl⟩, ?_⟩
    simp [completenessCheck, hreq, hresp]
  have hpre : summariesBeforeFiltering requests events = .error () := by
    unfold summariesBeforeFiltering
    exact mapExcept_error_of_mem _ hmem hsum
  unfold partialRequestsToCompleteSummaries
  rw [hpre]

/-- C5 witness: the amended claim applied at the error-isolation scenario
(filter set `css`). -/
theorem claim5_witness :
    partialRequestsToCompleteSummaries [r5a, r5b] [e5bad, e5badResp, e5good, e5goodResp]
      ["css"] = .error () :=
  claim5_amended [r5a, r5b] [e5bad, e5badResp, e5good, e5goodResp] ["css"]
    r5a e5bad "not a url" "GET" [] (by decide) (by decide) (by decide) (by decide) (by decide)
/-- C6: the type-filter keeps a summary exactly under the specified
conditions — empty set keeps everything; otherwise an exact type match, or
`xhr` with a type containing "json", or `font` with "woff"/"ttf", or `img`
with "svg"/"jpeg"/"png"/"gif" — and filtering keeps each passing row exactly
once (the count of a summary in the filtered list equals its count in the
input when it passes, and is zero otherwise). -/
theorem claim6_type_filter (types : List String) (t : String)
    (l : List RequestSummary) (s : RequestSummary) :
    (typeFilter types t = true ↔
      (types = [] ∨ t ∈ types ∨
        ("xhr" ∈ types ∧ hasSubstring t "json" = true) ∨
        ("font" ∈ types ∧ (hasSubstring t "woff" = true ∨ hasSubstring t "ttf" = true)) ∨
        ("img" ∈ types ∧
          (hasSubstring t "svg" = true ∨ hasSubstring t "jpeg" = true ∨
           hasSubstring t "png" = true ∨ hasSubstring t "gif" = true)))) ∧
    ((l.filter fun row => typeFilter types row.type).count s =
      if typeFilter types s.type then l.count s else 0) :=
  ⟨typeFilter_iff types t, count_filter_eq l _ s⟩

/-- C7 counterexample: in the end-to-end scenario the pipeline's single
summary carries the request record's point "5" (the request-open point), not
the response point "12" the claim specifies. -/
theorem claim7_counterexample :
    partialRequestsToCompleteSummaries [r7a, r7b] [e7req, e7resp, e7req2] [] = .ok [s7] ∧
      s7.point.point ≠ "12" := by
  decide

/-- C7 amended: the end-to-end scenario returns exactly one summary, for id
"1", with domain "a.test", name "x", queryParams `[("y","1")]`, documentType
"application/json", type "json" — and point "5", the request record's own
point (the pipeline reads the summary's point from the request record, never
from the response event). -/
theorem claim7_amended :
    partialRequestsToCompleteSummaries [r7a, r7b] [e7req, e7resp, e7req2] [] = .ok [s7] ∧
      s7.id = "1" ∧ s7.domain = "a.test" ∧ s7.name = "x" ∧
      s7.queryParams = [("y", "1")] ∧ s7.documentType = "application/json" ∧
      s7.type = "json" ∧ s7.point.point = "5" := by
  decide

/-- C8: every successful pipeline run is pairwise ordered by the point
comparator; the comparator orders a shorter digit string strictly before a
longer one and equal-length strings lexicographically; and the concrete
scenario with points "100", "20", "9" comes out as ["9", "20", "100"]. -/
theorem claim8_sorted_by_point :
    (∀ (requests : List RequestInfo) (events : List RequestEventInfo)
        (types : List String) (l : List RequestSummary),
      partialRequestsToCompleteSummaries requests events types = .ok l →
        l.Pairwise summaryLE) ∧
    (∀ a b : String, a.length < b.length → compareNumericStrings a b = -1) ∧
    (∀ a b : String, a.length = b.length →
      (compareNumericStrings a b ≤ 0 ↔ (lexLt a.data b.data = true ∨ a = b))) ∧
    Except.map (fun l => l.map fun s => s.point.point)
      (partialRequestsToCompleteSummaries r8 e8 []) = .ok ["9", "20", "100"] := by
  refine ⟨fun _ _ _ _ h => pipeline_sorted h, ?_, ?_, by decide⟩
  · intro a b h
    unfold compareNumericStrings
    rw [if_pos h]
  · intro a b h
    rw [compareNumericStrings_le_iff]
    simp [h]

/-- C8 witness: concrete applications of the three quantified parts. -/
theorem claim8_witness :
    List.Pairwise summaryLE [s7] ∧ compareNumericStrings "9" "100" = -1 ∧
      (compareNumericStrings "20" "99" ≤ 0 ↔ (lexLt "20".data "99".data = true ∨ "20" = "99")) :=
  ⟨claim8_sorted_by_point.1 [r7a, r7b] [e7req, e7resp, e7req2] [] [s7] (by decide),
   claim8_sorted_by_point.2.1 "9" "100" (by decide),
   claim8_sorted_by_point.2.2.1 "20" "99" (by decide)⟩

/-- C9 counterexample: a content-type with two parameters is chopped only at
its *last* delimiter — the first parameter survives, contradicting the claim
that every trailing parameter is removed. -/
theorem claim9_counterexample :
    getDocumentType
        [{ name := "content-type", value := "application/json; charset=utf-8; boundary=x" }] =
      "application/json; charset=utf-8" ∧
    getDocumentType
        [{ name := "content-type", value := "application/json; charset=utf-8; boundary=x" }] ≠
      "application/json" := by
  decide

/-- C9 amended: with no content-type header the documentType is "unknown";
with one present whose value splits as `q ++ d :: p` around its *last*
delimiter `d` (`,` or `;`), the documentType is exactly `q` — only the final
delimited segment is dropped, so a single-parameter value loses its
parameter, but earlier parameters of a multi-parameter value survive. -/
theorem claim9_amended (headers : List Header) :
    (findHeader headers "content-type" = none → getDocumentType headers = "unknown") ∧
    (∀ (s : String) (q p : List Char) (d : Char),
      findHeader headers "content-type" = some s →
      s.data = q ++ d :: p → (d = ',' ∨ d = ';') → q ≠ [] →
      (∀ c ∈ q, c ≠ '\n') → (∀ c ∈ p, ¬(c = ',' ∨ c = ';') ∧ c ≠ '\n') →
      getDocumentType headers = String.mk q) := by
  constructor
  · intro h
    simp only [getDocumentType, h]
    decide
  · intro s q p d hfound hsplit hd hq hqn hp
    have hne : ¬ s = "" := by
      intro h
      subst h
      simp at hsplit
    simp only [getDocumentType, hfound, hne, if_false]
    exact chopContentType_eq hsplit hd hq hqn hp

/-- C9 witness: the amended claim applied concretely — absent header, and a
single-parameter value losing its parameter. -/
theorem claim9_witness :
    getDocumentType [] = "unknown" ∧
      getDocumentType [{ name := "content-type", value := "text/html; charset=utf-8" }] =
        "text/html" := by
  refine ⟨(claim9_amended []).1 (by decide), ?_⟩
  exact (claim9_amended _).2 "text/html; charset=utf-8" "text/html".data
    " charset=utf-8".data ';' (by decide) (by decide) (by decide) (by decide)
    (by decide) (by decide)

/-- C10: a request record whose id occurs in no event is handled totally —
the id's bucket is empty, its kind map is empty, and the record contributes
no summary either before filtering or in the full pipeline output (it is
silently excluded as an incomplete exchange; it cannot make the pipeline
fail since it never reaches the URL-parsing stage). -/
theorem claim10_missing_id (requests : List RequestInfo) (events : List RequestEventInfo)
    (r : RequestInfo) (_hr : r ∈ requests) (hid : ∀ e ∈ events, e.id ≠ r.id) :
    eventsByRequestId events r.id = [] ∧
    (∀ k, eventsToMap (eventsByRequestId events r.id) k = none) ∧
    (∀ l, summariesBeforeFiltering requests events = .ok l →
      l.countP (fun s => decide (s.id = r.id)) = 0) ∧
    (∀ types l, partialRequestsToCompleteSummaries requests events types = .ok l →
      l.countP (fun s => decide (s.id = r.id)) = 0) := by
  have h1 : eventsByRequestId events r.id = [] := by
    rw [eventsByRequestId_eq]
    have : (events.filter fun e => decide (e.id = r.id)) = [] := by
      rw [List.filter_eq_nil_iff]
      intro e he
      simp [hid e he]
    rw [this]
    rfl
  have hfalse : hasCompleteExchange events r.id = false := by
    unfold hasCompleteExchange
    have : (events.any fun e =>
        decide (e.id = r.id) && decide (e.event.kind = EventKind.request)) = false := by
      rw [List.any_eq_false]
      intro e he
      simp [hid e he]
    rw [this]
    rfl
  refine ⟨h1, fun k => by rw [h1]; rfl, ?_, ?_⟩
  · intro l h
    rw [countP_summariesBeforeFiltering h, hfalse]
    rfl
  · intro types l h
    refine countP_pipeline_eq_zero h _ ?_
    intro l0 h0
    rw [countP_summariesBeforeFiltering h0, hfalse]
    rfl

/-- C10 witness: the claim applied at a concrete record whose id matches no
event. -/
theorem claim10_witness :
    eventsByRequestId [e7req, e7resp] rz.id = [] ∧
      eventsToMap (eventsByRequestId [e7req, e7resp] rz.id) EventKind.request = none ∧
      (([] : List RequestSummary).countP fun s => decide (s.id = rz.id)) = 0 := by
  have h := claim10_missing_id [rz] [e7req, e7resp] rz (by decide) (by decide)
  exact ⟨h.1, h.2.1 EventKind.request, h.2.2.1 [] (by decide)⟩

end NetReq
